import Mathlib

/-!
Verification of the asset-path rewriting and document-decomposition core of
convert_to_wordpress.py (static-site to WordPress theme converter).

The embedding models strings as Lean Strings (lists of characters), the
filesystem as a finite map from path strings to file contents plus a set of
directories, and the parsed HTML document as a tree of element / text /
comment nodes.  Python dictionaries are modelled as insertion-ordered
association lists.  Pure path arithmetic follows POSIX pathlib semantics.
-/

namespace RMK

/-! ### Character and string primitives -/

/-- Characters stripped by the Python call val.lstrip(dot-slash):
str.lstrip with a character set removes the maximal leading run of
characters drawn from the set. -/
def isDotSlash (c : Char) : Bool := c = '.' || c = '/'

def lstripDotSlashL (l : List Char) : List Char := l.dropWhile isDotSlash

/-- val.lstrip(dot-slash) from collect_local_assets (line 59) and the
rewriter repl (line 95). -/
def lstripDotSlash (s : String) : String := String.mk (lstripDotSlashL s.data)

def lstripSlashL (l : List Char) : List Char := l.dropWhile (fun c => c = '/')

/-- v.lstrip(slash) from the rewriter (line 113) and the mapping
normalization (line 184). -/
def lstripSlash (s : String) : String := String.mk (lstripSlashL s.data)

def bslashToSlashC (c : Char) : Char := if c = '\\' then '/' else c

def backslashToSlashL (l : List Char) : List Char := l.map bslashToSlashC

/-- key.replace(backslash, slash) from the rewriter (line 96) and
str(rel).replace(backslash, slash) in copy_assets (line 81). -/
def backslashToSlash (s : String) : String := String.mk (backslashToSlashL s.data)

/-- Whitespace characters removed by Python str.strip (ASCII cases). -/
def wsChar (c : Char) : Bool := c = ' ' || c = '\t' || c = '\n' || c = '\r'

def trimL (l : List Char) : List Char :=
  ((l.dropWhile wsChar).reverse.dropWhile wsChar).reverse

def listStarts (p : String) (l : List Char) : Bool := p.data.isPrefixOf l

/-- Python str.startswith as a Lean Boolean on Strings. -/
def strStartsWith (s p : String) : Bool := p.data.isPrefixOf s.data

/-- Substring membership, Python pat in s. -/
def containsSubL (p : List Char) : List Char → Bool
  | [] => p.isPrefixOf []
  | c :: t => p.isPrefixOf (c :: t) || containsSubL p t

def strContainsSub (s p : String) : Bool := containsSubL p.data s.data

/-! ### POSIX path arithmetic (pathlib) -/

/-- Split a path string at slashes. -/
def splitSlashL : List Char → List (List Char)
  | [] => [[]]
  | c :: rest =>
    if c = '/' then [] :: splitSlashL rest
    else match splitSlashL rest with
      | [] => [[c]]
      | p :: ps => (c :: p) :: ps

/-- A path component that survives pathlib normalization: neither empty nor
a lone dot. -/
def goodPiece (p : List Char) : Bool := !(p.isEmpty) && !(p == ['.'])

/-- Python Path(s).name: the last normalized component of the path. -/
def pathNameL (l : List Char) : List Char :=
  (((splitSlashL l).filter goodPiece).getLast?).getD []

def pathName (s : String) : String := String.mk (pathNameL s.data)

/-- The suffix of a file name n: name.rfind(dot) must give an interior
position that is not the final character (CPython pathlib). -/
def suffixOfName (n : List Char) : List Char :=
  let j := n.reverse.findIdx (fun c => c = '.')
  if j ≥ n.length then []
  else
    let i := n.length - 1 - j
    if 0 < i ∧ i < n.length - 1 then n.drop i else []

/-- Python Path(s).suffix: the final extension of the last component,
empty when the name has no interior dot ending before the last char. -/
def suffixL (l : List Char) : List Char := suffixOfName (pathNameL l)

def pathSuffix (s : String) : String := String.mk (suffixL s.data)

/-- Path(cleaned).suffix.lower() as used by collect_local_assets. -/
def pathSuffixLower (s : String) : String := String.mk ((suffixL s.data).map Char.toLower)

/-! ### is_remote and the asset extension allow-list -/

/-- ASSET_EXTS (line 34). -/
def ASSET_EXTS : List String :=
  [".css", ".js", ".png", ".jpg", ".jpeg", ".gif", ".svg", ".webp", ".ico",
   ".woff", ".woff2", ".ttf", ".otf"]

/-- is_remote (lines 37-41). -/
def is_remote (url : String) : Bool :=
  if url.data.isEmpty then false
  else
    let u := trimL url.data
    listStarts "http://" u || listStarts "https://" u || listStarts "//" u ||
      listStarts "mailto:" u || listStarts "tel:" u || listStarts "#" u

/-! ### Python dict as insertion-ordered association list -/

abbrev Mapping := List (String × String)

/-- dict[k] lookup. -/
def lookupMap (m : Mapping) (k : String) : Option String :=
  (m.find? (fun kv => kv.1 == k)).map (fun kv => kv.2)

/-- dict[k] = v assignment: replaces the value in place when the key is
present, appends otherwise (Python dicts preserve insertion order). -/
def dictInsert : Mapping → String → String → Mapping
  | [], k, v => [(k, v)]
  | (k0, v0) :: rest, k, v =>
    if k0 = k then (k0, v) :: rest else (k0, v0) :: dictInsert rest k v

/-- The basename-fallback search of repl (lines 102-107): the first entry
whose key has the same Path(...)name, in insertion order. -/
def findByBase (m : Mapping) (b : String) : Option String :=
  (m.find? (fun kv => pathName kv.1 == b)).map (fun kv => kv.2)

/-! ### The rewriter: replace_asset_paths_in_html -/

/-- The PHP template-URI expression prefixed to every rewritten path
(line 116). -/
def phpUriCall : String := "<?php echo get_template_directory_uri(); ?>"

/-- Reassemble one src/href attribute occurrence,
attr = openquote value closequote. -/
def mkOcc (attr : String) (q : Char) (v : String) (q2 : Char) : String :=
  attr ++ "=" ++ String.singleton q ++ v ++ String.singleton q2

/-- key = val.lstrip(dot-slash).replace(backslash, slash) (lines 95-96). -/
def rewriterKey (val : String) : String := backslashToSlash (lstripDotSlash val)

/-- The nested repl callback of replace_asset_paths_in_html (lines 91-117)
applied to one regex match (groups: attr, quote, value, closing quote).
The basename fallback treats an empty found value as no match, mirroring
the Python truthiness test on found. -/
def replOcc (m : Mapping) (attr : String) (q : Char) (val : String) (q2 : Char) : String :=
  match lookupMap m (rewriterKey val) with
  | some v => mkOcc attr q (phpUriCall ++ "/assets/" ++ lstripSlash v) q
  | none =>
    match findByBase m (pathName (rewriterKey val)) with
    | some v =>
      if v.data.isEmpty then mkOcc attr q val q2
      else mkOcc attr q (phpUriCall ++ "/assets/" ++ lstripSlash v) q
    | none => mkOcc attr q val q2

/-- A character admissible inside the regex value group (anything except
the two quote characters). -/
def notQuote (c : Char) : Bool := !(c = '"' || c = '\'')

/-- Try to match the attribute-name-and-equals part of the pattern
(src|href)= case-insensitively at the head of the input, returning the
original-case attribute text and what follows the equals sign. -/
def matchAttr : (l : List Char) → Option (String × { r : List Char // r.length < l.length })
  | [] => none
  | [_] => none
  | [_, _] => none
  | [_, _, _] => none
  | a :: b :: c :: d :: rest =>
    if a.toLower = 's' ∧ b.toLower = 'r' ∧ c.toLower = 'c' ∧ d = '=' then
      some (String.mk [a, b, c], ⟨rest, by simp only [List.length_cons]; omega⟩)
    else
      match rest with
      | e :: rest2 =>
        if a.toLower = 'h' ∧ b.toLower = 'r' ∧ c.toLower = 'e' ∧ d.toLower = 'f' ∧ e = '=' then
          some (String.mk [a, b, c, d], ⟨rest2, by simp only [List.length_cons]; omega⟩)
        else none
      | [] => none

/-- Try to match the full regex (src|href)=(quote)([^quotes]+)(quote) at the
head of the input; on success return the four groups and the remainder. -/
def tryMatch (l : List Char) :
    Option (String × Char × String × Char × { r : List Char // r.length < l.length }) :=
  match matchAttr l with
  | none => none
  | some (attr, ⟨rest1, h1⟩) =>
    match h2 : rest1 with
    | [] => none
    | q :: rest2 =>
      if q = '"' ∨ q = '\'' then
        match h3 : rest2.dropWhile notQuote with
        | [] => none
        | q2 :: rest4 =>
          if (rest2.takeWhile notQuote).isEmpty then none
          else
            some (attr, q, String.mk (rest2.takeWhile notQuote), q2,
              ⟨rest4, by
                have hd : (rest2.dropWhile notQuote).length ≤ rest2.length :=
                  (rest2.dropWhile_sublist notQuote).length_le
                rw [h3] at hd
                simp only [List.length_cons] at hd
                subst h2
                simp only [List.length_cons] at h1
                omega⟩)
      else none

/-- The re.sub scan: walk the input left to right, replacing each
non-overlapping leftmost match of the pattern via replOcc and copying
everything else unchanged.  Each match consumes at least one character,
so a fuel equal to the input length always suffices; the fuel only
realizes the termination measure. -/
def scanReplF (m : Mapping) : Nat → List Char → List Char
  | _, [] => []
  | 0, l => l
  | fuel + 1, c :: rest =>
    match tryMatch (c :: rest) with
    | some (attr, q, val, q2, r) => (replOcc m attr q val q2).data ++ scanReplF m fuel r.1
    | none => c :: scanReplF m fuel rest

/-- replace_asset_paths_in_html (lines 85-120). -/
def replace_asset_paths_in_html (html : String) (m : Mapping) : String :=
  String.mk (scanReplF m html.data.length html.data)

/-! ### Parsed HTML documents (BeautifulSoup node trees) -/

/-- A parsed HTML node: an element with attributes and children, a text
node (NavigableString), or an HTML comment. -/
inductive Node where
  | elem (name : String) (attrs : List (String × String)) (children : List Node)
  | text (s : String)
  | comment (s : String)
deriving Repr

/-- Entity substitution applied by the serializer to text nodes
(BeautifulSoup minimal formatter). -/
def escTextC (c : Char) : List Char :=
  if c = '&' then "&amp;".data
  else if c = '<' then "&lt;".data
  else if c = '>' then "&gt;".data
  else [c]

def escText (s : String) : String := String.mk (s.data.foldr (fun c acc => escTextC c ++ acc) [])

/-- Entity substitution applied to attribute values. -/
def escAttrC (c : Char) : List Char :=
  if c = '&' then "&amp;".data
  else if c = '"' then "&quot;".data
  else if c = '<' then "&lt;".data
  else if c = '>' then "&gt;".data
  else [c]

def escAttr (s : String) : String := String.mk (s.data.foldr (fun c acc => escAttrC c ++ acc) [])

def serializeAttrs : List (String × String) → String
  | [] => ""
  | (n, v) :: rest => " " ++ n ++ "=\"" ++ escAttr v ++ "\"" ++ serializeAttrs rest

mutual

/-- str(tag): serialize a node back to HTML text. -/
def serializeNode : Node → String
  | Node.elem n a cs => "<" ++ n ++ serializeAttrs a ++ ">" ++ serializeNodes cs ++ "</" ++ n ++ ">"
  | Node.text s => escText s
  | Node.comment s => "<!--" ++ s ++ "-->"

def serializeNodes : List Node → String
  | [] => ""
  | x :: xs => serializeNode x ++ serializeNodes xs

end

mutual

/-- find on a single node: the node itself when its tag name matches,
else the first match among its descendants. -/
def findElemN (nm : String) : Node → Option Node
  | Node.elem n a cs => if n = nm then some (Node.elem n a cs) else findElem nm cs
  | _ => none

/-- soup.find(name) / soup.body / soup.head: first element with the given
tag name in document (depth-first, pre-) order. -/
def findElem (nm : String) : List Node → Option Node
  | [] => none
  | x :: rest =>
    match findElemN nm x with
    | some r => some r
    | none => findElem nm rest

end

mutual

/-- The comment-extraction pass of generate_theme (lines 136-137). -/
def stripComments : List Node → List Node
  | [] => []
  | x :: rest => stripNode x ++ stripComments rest

def stripNode : Node → List Node
  | Node.comment _ => []
  | Node.elem n a cs => [Node.elem n a (stripComments cs)]
  | Node.text s => [Node.text s]

end

mutual

/-- soup.find_all(): every element in document order. -/
def allElems : List Node → List Node
  | [] => []
  | x :: rest => allElemsN x ++ allElems rest

def allElemsN : Node → List Node
  | Node.elem n a cs => Node.elem n a cs :: allElems cs
  | _ => []

end

def attrLookup (attrs : List (String × String)) (nm : String) : Option String :=
  (attrs.find? (fun kv => kv.1 == nm)).map (fun kv => kv.2)

/-- The src/href attribute values of one tag, in the order the collector
visits them. -/
def attrVals : Node → List String
  | Node.elem _ attrs _ => (attrLookup attrs "src").toList ++ (attrLookup attrs "href").toList
  | _ => []

def childrenOf : Node → List Node
  | Node.elem _ _ cs => cs
  | _ => []

/-! ### Filesystem model -/

/-- The filesystem: file paths mapped to contents, plus created
directories.  Paths are compared lexically. -/
structure FS where
  files : List (String × String)
  dirs : List String

def lookupFile (fs : FS) (p : String) : Option String :=
  (fs.files.find? (fun kv => kv.1 == p)).map (fun kv => kv.2)

def fileExistsFS (fs : FS) (p : String) : Bool := (lookupFile fs p).isSome

def writeFS (fs : FS) (p c : String) : FS := ⟨dictInsert fs.files p c, fs.dirs⟩

def mkdirFS (fs : FS) (d : String) : FS :=
  ⟨fs.files, if fs.dirs.contains d then fs.dirs else fs.dirs ++ [d]⟩

/-- The directory part of a path (used only for mkdir bookkeeping). -/
def parentDir (s : String) : String :=
  String.mk (((s.data.reverse.dropWhile (fun c => !(c = '/'))).drop 1).reverse)

/-- write_file (lines 123-125). -/
def write_file (fs : FS) (p content : String) : FS :=
  writeFS (mkdirFS fs (parentDir p)) p content

/-! ### collect_local_assets -/

/-- Processing of one candidate src/href value (lines 52-65). -/
def collectStep (site : String) (fs : FS) (acc : List String) (val : String) : List String :=
  if is_remote val then acc
  else
    if ASSET_EXTS.contains (pathSuffixLower (lstripDotSlash val)) then
      if fileExistsFS fs (site ++ "/" ++ lstripDotSlash val)
          && !(acc.contains (site ++ "/" ++ lstripDotSlash val)) then
        acc ++ [site ++ "/" ++ lstripDotSlash val]
      else acc
    else acc

/-- collect_local_assets (lines 44-66); the Python set of paths is
modelled as a duplicate-free list. -/
def collect_local_assets (doc : List Node) (site : String) (fs : FS) : List String :=
  (((allElems doc).map attrVals).flatten).foldl (collectStep site fs) []

/-! ### copy_assets and the mapping normalization -/

/-- asset.relative_to(site_dir) with the name-only fallback (lines 73-77). -/
def relativeTo (site a : String) : String :=
  if (site ++ "/").data.isPrefixOf a.data then String.mk (a.data.drop (site ++ "/").data.length)
  else pathName a

def copyAssetsGo (site dest : String) : List String → FS → Mapping → Option (FS × Mapping)
  | [], fs, mp => some (fs, mp)
  | a :: rest, fs, mp =>
    match lookupFile (mkdirFS fs (parentDir (dest ++ "/" ++ relativeTo site a))) a with
    | none => none
    | some c =>
      copyAssetsGo site dest rest
        (writeFS (mkdirFS fs (parentDir (dest ++ "/" ++ relativeTo site a)))
          (dest ++ "/" ++ relativeTo site a) c)
        (dictInsert mp (backslashToSlash (relativeTo site a)) (relativeTo site a))

/-- copy_assets (lines 69-82): copy each asset below the destination
directory and record old-rel to new-rel; a missing source file aborts
(shutil.copy2 would raise).  On POSIX str(rel) and rel.as_posix() are both
the slash-joined path, so the recorded value is rel itself. -/
def copy_assets (fs : FS) (site dest : String) (assets : List String) : Option (FS × Mapping) :=
  copyAssetsGo site dest assets fs []

/-- Strip one leading theme-folder segment (line 186-187). -/
def stripThemeSeg (nm : String) (vv : String) : String :=
  if strStartsWith vv (nm ++ "/") then String.mk (vv.data.drop (nm.data.length + 1)) else vv

/-- Strip one leading assets segment (line 189-190). -/
def stripAssetsSeg (vv : String) : String :=
  if strStartsWith vv "assets/" then String.mk (vv.data.drop 7) else vv

/-- The per-value mapping normalization of generate_theme (lines 183-191):
strip leading slashes, then one leading theme-folder segment, then one
leading assets segment. -/
def normalizeVal (nm : String) (v : String) : String :=
  stripAssetsSeg (stripThemeSeg nm (lstripSlash v))

/-- The normalization loop of generate_theme (lines 181-192). -/
def normalizeMapping (nm : String) (m : Mapping) : Mapping :=
  m.map (fun kv => (kv.1, normalizeVal nm kv.2))

/-! ### Document decomposition (generate_theme lines 205-249) -/

/-- Header extraction: body.find(header), else the first child with a tag
name (lines 210-221). -/
def headerFragment (body : Node) (m : Mapping) : String :=
  match findElem "header" (childrenOf body) with
  | some t => replace_asset_paths_in_html (serializeNode t) m
  | none =>
    match (childrenOf body).find? (fun n =>
        match n with
        | Node.elem nm _ _ => !(nm == "")
        | _ => false) with
    | some f => replace_asset_paths_in_html (serializeNode f) m
    | none => ""

/-- The filtered concatenation of top-level body children used when no
main tag exists (lines 226-242): drop header/footer tags, comments and
whitespace-only text nodes. -/
def mainParts : List Node → String
  | [] => ""
  | Node.elem nm a cs :: rest =>
    if nm = "header" ∨ nm = "footer" then mainParts rest
    else serializeNode (Node.elem nm a cs) ++ mainParts rest
  | Node.comment _ :: rest => mainParts rest
  | Node.text s :: rest =>
    if (trimL s.data).isEmpty then mainParts rest else s ++ mainParts rest

/-- Main extraction (lines 223-242). -/
def mainFragment (body : Node) (m : Mapping) : String :=
  match findElem "main" (childrenOf body) with
  | some t => replace_asset_paths_in_html (serializeNode t) m
  | none => replace_asset_paths_in_html (mainParts (childrenOf body)) m

/-- Footer extraction (lines 244-245). -/
def footerFragment (body : Node) (m : Mapping) : String :=
  match findElem "footer" (childrenOf body) with
  | some t => replace_asset_paths_in_html (serializeNode t) m
  | none => ""

/-- The header/main/footer decomposition of generate_theme
(lines 205-249), including the no-body fallback that rewrites the whole
document as the main fragment. -/
def extractParts (doc : List Node) (m : Mapping) : String × String × String :=
  match findElem "body" doc with
  | some b => (headerFragment b m, mainFragment b m, footerFragment b m)
  | none => ("", replace_asset_paths_in_html (serializeNodes doc) m, "")

/-! ### Emitted template files (boilerplate from lines 252-338) -/

/-- Leftmost non-overlapping substring replacement, Python str.replace. -/
def replaceSubL (pat rep : List Char) (l : List Char) : List Char :=
  match l with
  | [] => []
  | c :: rest =>
    if pat ≠ [] ∧ pat.isPrefixOf (c :: rest) then
      rep ++ replaceSubL pat rep (rest.drop (pat.length - 1))
    else c :: replaceSubL pat rep rest
termination_by l.length
decreasing_by
  · simp only [List.length_cons, List.length_drop]; omega
  · simp

def strReplace (s pat rep : String) : String := String.mk (replaceSubL pat.data rep.data s.data)

/-- A single-quote character, kept out of literals. -/
def sq : String := String.singleton (Char.ofNat 39)

def q1 (s : String) : String := sq ++ s ++ sq

/-- style.css content (lines 252-261). -/
def styleCss : String :=
  "/*\nTheme Name: RMK Theme\nTheme URI: http://example.com/\nAuthor: Tian Hrovat  & Andrej Sušnik\nDescription: Converted from static site\nVersion: 1.1.3\n*/\n\n/* Add your theme CSS below or edit assets/*.css files copied from the site */\n"

/-- The wp_enqueue lines of functions.php (lines 265-272). -/
def enqueueLines (m : Mapping) : List String :=
  let extraCss := (m.map (fun kv => kv.2)).filter (fun v => pathSuffix v == ".css")
  let extraJs := (m.map (fun kv => kv.2)).filter (fun v => pathSuffix v == ".js")
  ["\twp_enqueue_style(" ++ q1 "rmk-style" ++ ", get_stylesheet_uri());"]
    ++ extraCss.enum.map (fun iv =>
      "\twp_enqueue_style(" ++ q1 ("rmk-extra-" ++ toString iv.1)
        ++ ", get_template_directory_uri() . " ++ q1 ("/assets/" ++ iv.2) ++ ");")
    ++ extraJs.enum.map (fun iv =>
      "\twp_enqueue_script(" ++ q1 ("rmk-extra-js-" ++ toString iv.1)
        ++ ", get_template_directory_uri() . " ++ q1 ("/assets/" ++ iv.2)
        ++ ", array(), null, true);")

/-- functions.php content (lines 274-279). -/
def functionsPhp (m : Mapping) : String :=
  "<?php\nfunction rmk_theme_enqueue() \x7b\n" ++ String.intercalate "\n" (enqueueLines m)
    ++ "\n\x7d\nadd_action(" ++ q1 "wp_enqueue_scripts" ++ ", " ++ q1 "rmk_theme_enqueue"
    ++ ");\n"

/-- The fixed header.php boilerplate (lines 283-296). -/
def headerBoiler : String :=
  "<?php\n/**\n * Header for the converted theme\n */\n?><!doctype html>\n<html <?php language_attributes(); ?>>\n<head>\n<meta charset=\"<?php bloginfo( " ++ q1 "charset"
    ++ " ); ?>\">\n<meta name=\"viewport\" content=\"width=device-width, initial-scale=1\">\n<?php wp_head(); ?>\n</head>\n<body <?php body_class(); ?>>\n<?php wp_body_open(); ?>\n"

/-- header.php assembly (lines 297-312), including the tailwind-path,
PHP-entity-unescape and duplicate-assets repair replacements. -/
def headerPhp (headHtml headerHtml : String) : String :=
  let hh :=
    if headHtml.data.isEmpty then headHtml
    else
      let h1 := strReplace headHtml "rmk-theme/assets/css/tailwind.css" "assets/css/tailwind.css"
      let h2 := strReplace h1 "&lt;?php" "<?php"
      let h3 := strReplace h2 "?&gt;" "?>"
      strReplace h3 "/assets/assets/" "/assets/"
  let base := strReplace headerBoiler "<?php wp_head(); ?>" (hh ++ "\n<?php wp_head(); ?>")
  base ++ "\n" ++ headerHtml ++ "\n"

/-- footer.php content (lines 315-325). -/
def footerPhp (footerHtml : String) : String :=
  (if footerHtml.data.isEmpty then "<?php\n/**\n * Footer for the converted theme\n */\n?>\n"
   else "<?php\n/**\n * Footer for the converted theme\n */\n?>\n" ++ "\n" ++ footerHtml ++ "\n")
    ++ "<?php wp_footer(); ?>\n</body>\n</html>\n"

/-- index.php content (lines 328-338). -/
def indexPhp (mainHtml : String) : String :=
  "<?php\n/*\n * Index template generated from static site. Replace with dynamic loop as needed.\n */\nget_header();\n?>\n<main>\n"
    ++ mainHtml ++ "\n</main>\n<?php get_footer(); ?>\n"

/-! ### generate_theme -/

/-- The exceptions generate_theme can raise: the explicit
FileNotFoundError for a missing index.html (line 131), a copy failure
inside copy_assets, the UnboundLocalError at line 203 when the document
has no head element (head_inner is only bound inside the preceding if),
and the AttributeError at line 203 when reparsing the rewritten head
yields no head tag. -/
inductive ConvError where
  | fileNotFound
  | copyFailure
  | unboundLocalHead
  | attributeErrorHead
deriving DecidableEq, Repr

/-- The HTML parser (BeautifulSoup) is an external collaborator, supplied
as an oracle. -/
abbrev ParseFn := String → List Node

/-- A site/*.html top-level page other than index.html (lines 343-346). -/
def isTopHtml (site : String) (p : String) : Bool :=
  strStartsWith p (site ++ "/") &&
    (let rest := p.data.drop (site ++ "/").data.length
     !(rest.contains '/') && ".html".data.isSuffixOf rest)

/-- The final copy of other top-level .html files into the theme folder
(lines 343-346). -/
def copyHtmlSiblings (fs0 : FS) (site out : String) : FS :=
  let pages := fs0.files.filter (fun kv =>
    isTopHtml site kv.1 && !(kv.1 == site ++ "/index.html"))
  pages.foldl
    (fun fs kv => writeFS fs (out ++ "/" ++ String.mk (kv.1.data.drop (site ++ "/").data.length)) kv.2)
    fs0

/-- generate_theme (lines 128-349).  The optional npm/tailwind build
(lines 143-176) shells out to an external tool and never touches the
theme output, so it is not modelled.  The first component is the raised
exception, if any; the second is the filesystem state when the run ends. -/
def generate_theme (parse : ParseFn) (fs : FS) (site out : String) : Option ConvError × FS :=
  match lookupFile fs (site ++ "/index.html") with
  | none => (some ConvError.fileNotFound, fs)
  | some content =>
    let soup := stripComments (parse content)
    let fs1 := mkdirFS (mkdirFS fs out) (out ++ "/assets")
    let assets := collect_local_assets soup site fs1
    match copy_assets fs1 site (out ++ "/assets") assets with
    | none => (some ConvError.copyFailure, fs1)
    | some (fs2, mapping0) =>
      let mapping := normalizeMapping (pathName out) mapping0
      match findElem "head" soup with
      | none => (some ConvError.unboundLocalHead, fs2)
      | some h =>
        let headHtml0 := replace_asset_paths_in_html (serializeNode h) mapping
        match findElem "head" (parse headHtml0) with
        | none => (some ConvError.attributeErrorHead, fs2)
        | some hi =>
          let headHtml := serializeNodes (childrenOf hi)
          let parts := extractParts soup mapping
          let fs3 := write_file fs2 (out ++ "/style.css") styleCss
          let fs4 := write_file fs3 (out ++ "/functions.php") (functionsPhp mapping)
          let fs5 := write_file fs4 (out ++ "/header.php") (headerPhp headHtml parts.1)
          let fs6 := write_file fs5 (out ++ "/footer.php") (footerPhp parts.2.2)
          let fs7 := write_file fs6 (out ++ "/index.php") (indexPhp parts.2.1)
          (none, copyHtmlSiblings fs7 site out)

/-! ## Helper lemmas -/

theorem map_id_of_mem {f : Char → Char} :
    ∀ l : List Char, (∀ c ∈ l, f c = c) → l.map f = l := by
  intro l
  induction l with
  | nil => intro _; rfl
  | cons x t ih =>
    intro h
    simp only [List.map_cons]
    rw [h x (by simp), ih (fun c hc => h c (by simp [hc]))]

theorem dropWhile_head_not {pr : Char → Bool} :
    ∀ (l : List Char) (c : Char), (l.dropWhile pr).head? = some c → pr c = false := by
  intro l
  induction l with
  | nil => intro c h; simp [List.dropWhile] at h
  | cons x t ih =>
    intro c h
    by_cases hx : pr x
    · rw [List.dropWhile_cons_of_pos hx] at h; exact ih c h
    · rw [List.dropWhile_cons_of_neg hx] at h
      simp only [List.head?_cons, Option.some.injEq] at h
      subst h
      simpa using hx

theorem mkOcc_data (attr : String) (q : Char) (v : String) (q2 : Char) :
    (mkOcc attr q v q2).data = attr.data ++ '=' :: q :: v.data ++ [q2] := by
  simp [mkOcc, String.data_append, String.singleton]

theorem matchAttr_decomp {l : List Char} {attr : String}
    {r : { r : List Char // r.length < l.length }}
    (h : matchAttr l = some (attr, r)) : l = attr.data ++ '=' :: r.1 := by
  match l with
  | [] => simp [matchAttr] at h
  | [a] => simp [matchAttr] at h
  | [a, b] => simp [matchAttr] at h
  | [a, b, c] => simp [matchAttr] at h
  | [a, b, c, d] =>
    simp only [matchAttr] at h
    split_ifs at h with h1
    · obtain ⟨h1a, h1b, h1c, h1d⟩ := h1
      simp only [Option.some.injEq, Prod.mk.injEq] at h
      obtain ⟨ha, hr⟩ := h
      have hrv : r.1 = [] := by rw [← hr]
      rw [hrv, ← ha, h1d] <;> first | rfl | simp
  | a :: b :: c :: d :: e :: rest2 =>
    simp only [matchAttr] at h
    split_ifs at h with h1 h2
    · obtain ⟨h1a, h1b, h1c, h1d⟩ := h1
      simp only [Option.some.injEq, Prod.mk.injEq] at h
      obtain ⟨ha, hr⟩ := h
      have hrv : r.1 = e :: rest2 := by rw [← hr]
      rw [hrv, ← ha, h1d] <;> first | rfl | simp
    · obtain ⟨h2a, h2b, h2c, h2d, h2e⟩ := h2
      simp only [Option.some.injEq, Prod.mk.injEq] at h
      obtain ⟨ha, hr⟩ := h
      have hrv : r.1 = rest2 := by rw [← hr]
      rw [hrv, ← ha, h2e] <;> first | rfl | simp

theorem tryMatch_decomp {l : List Char} {attr : String} {q : Char} {val : String} {q2 : Char}
    {r : { r : List Char // r.length < l.length }}
    (h : tryMatch l = some (attr, q, val, q2, r)) :
    l = attr.data ++ '=' :: q :: val.data ++ q2 :: r.1 ∧ val.data ≠ [] := by
  unfold tryMatch at h
  split at h
  · exact absurd h (by simp)
  · rename_i attr0 rest1 h1 hma
    split at h
    · exact absurd h (by simp)
    · split_ifs at h with hq hv
      · split at h
        · exact absurd h (by simp)
        · exact absurd h (by simp)
      · split at h
        · exact absurd h (by simp)
        · rename_i h3
          simp only [Option.some.injEq, Prod.mk.injEq] at h
          obtain ⟨ha, hqq, hval, hq2, hr⟩ := h
          have hrv := congrArg Subtype.val hr
          simp only at hrv
          have hval' := congrArg String.data hval
          simp only at hval'
          constructor
          · refine (matchAttr_decomp hma).trans ?_
            rw [← ha]
            rw [← hqq]
            rw [← hval']
            rw [← hq2]
            rw [← hrv]
            rw [← h3]
            simp [List.takeWhile_append_dropWhile]
          · intro hemp
            exact hv (by rw [hval', hemp]; rfl)

theorem replOcc_nil (attr : String) (q : Char) (val : String) (q2 : Char) :
    replOcc [] attr q val q2 = mkOcc attr q val q2 := by
  simp [replOcc, lookupMap, findByBase, List.find?]

theorem scanReplF_nil_mapping :
    ∀ (f : Nat) (l : List Char), l.length ≤ f → scanReplF [] f l = l := by
  intro f
  induction f with
  | zero =>
    intro l hl
    have : l = [] := List.eq_nil_of_length_eq_zero (Nat.le_zero.mp hl)
    subst this
    simp [scanReplF]
  | succ f ih =>
    intro l hl
    match l with
    | [] => simp [scanReplF]
    | c :: rest =>
      rw [scanReplF]
      cases htm : tryMatch (c :: rest) with
      | none =>
        have : rest.length ≤ f := by simpa using hl
        simp [ih rest this]
      | some tup =>
        obtain ⟨attr, q, val, q2, r⟩ := tup
        obtain ⟨hdec, hne⟩ := tryMatch_decomp htm
        have hrlen : r.1.length ≤ f := by
          have := r.2
          simp only [List.length_cons] at this hl
          omega
        simp only
        rw [replOcc_nil, ih r.1 hrlen, mkOcc_data]
        conv_rhs => rw [hdec]
        simp

/-- Rewriting with an empty mapping is the identity: every match falls
through both lookups and is emitted unchanged. -/
theorem replace_nil_mapping (s : String) : replace_asset_paths_in_html s [] = s := by
  unfold replace_asset_paths_in_html
  rw [scanReplF_nil_mapping s.data.length s.data (Nat.le_refl _)]

/-! ## Claims -/

/-- Claim C5 (corrected).  The normalization of a candidate value is
Python str.lstrip with the two-character set dot-slash: it removes the
maximal leading run of dot and slash characters (so it can strip more
than a literal dot-slash prefix); a value whose first character is
neither a dot nor a slash is left unchanged, and the rewriter key
additionally converts backslashes, which is the identity on
backslash-free values. -/
theorem c5_normalization_lstrip (s : String) :
    (∀ c : Char, s.data.head? = some c → isDotSlash c = false → lstripDotSlash s = s)
    ∧ (∃ p : List Char, s.data = p ++ (lstripDotSlash s).data ∧ ∀ c ∈ p, isDotSlash c = true)
    ∧ (∀ c : Char, (lstripDotSlash s).data.head? = some c → isDotSlash c = false)
    ∧ ((∀ c ∈ s.data, c ≠ '\\') → rewriterKey s = lstripDotSlash s) := by
  refine ⟨?_, ?_, ?_, ?_⟩
  · intro c hc hns
    cases hd : s.data with
    | nil => rw [hd] at hc; simp at hc
    | cons x t =>
      rw [hd] at hc
      simp only [List.head?_cons, Option.some.injEq] at hc
      subst hc
      show String.mk (lstripDotSlashL s.data) = s
      rw [hd, lstripDotSlashL, List.dropWhile_cons_of_neg (by simp [hns]), ← hd]
  · refine ⟨s.data.takeWhile isDotSlash, ?_, ?_⟩
    · show s.data = _ ++ (lstripDotSlashL s.data)
      rw [lstripDotSlashL, List.takeWhile_append_dropWhile]
    · intro c hc
      exact List.mem_takeWhile_imp hc
  · intro c hc
    exact dropWhile_head_not s.data c hc
  · intro hnb
    show backslashToSlash (lstripDotSlash s) = lstripDotSlash s
    have hsub : ∀ c ∈ (lstripDotSlash s).data, c ≠ '\\' := by
      intro c hc
      apply hnb
      exact (List.dropWhile_sublist isDotSlash).mem hc
    unfold backslashToSlash backslashToSlashL
    rw [map_id_of_mem _ (fun c hc => by simp [bslashToSlashC, hsub c hc])]

/-- Claim C5 counterexample: a value that does not begin with dot-slash
still has its leading slash removed by the normalization. -/
theorem c5_counterexample :
    strStartsWith "/logo.png" "./" = false
    ∧ lstripDotSlash "/logo.png" = "logo.png"
    ∧ lstripDotSlash "/logo.png" ≠ "/logo.png" := by decide

/-- Claim C5 witness: for a value beginning with an ordinary character the
normalization is the identity, and the rewriter key agrees with it. -/
theorem c5_witness :
    lstripDotSlash "x/a.css" = "x/a.css" ∧ rewriterKey "x/a.css" = lstripDotSlash "x/a.css" :=
  ⟨(c5_normalization_lstrip "x/a.css").1 'x' rfl (by decide),
   (c5_normalization_lstrip "x/a.css").2.2.2 (by decide)⟩

/-- Claim C1 (corrected).  The repl callback never consults is_remote, so
a remote value is left unmodified only when its normalized form is not a
mapping key and the basename fallback also fails; under those two
conditions the occurrence is emitted unchanged. -/
theorem c1_remote_untouched_when_unmapped (m : Mapping) (attr : String) (q : Char)
    (val : String) (q2 : Char)
    (hrem : is_remote val = true)
    (hex : lookupMap m (rewriterKey val) = none)
    (hbase : findByBase m (pathName (rewriterKey val)) = none) :
    replOcc m attr q val q2 = mkOcc attr q val q2 := by
  simp [replOcc, hex, hbase]

/-- Claim C1 witness: a remote URL whose basename matches no mapping entry
passes through the rewriter callback unchanged. -/
theorem c1_witness :
    is_remote "https://cdn.example/a.css" = true
    ∧ replOcc [("x/b.css", "b.css")] "href" '"' "https://cdn.example/a.css" '"'
      = mkOcc "href" '"' "https://cdn.example/a.css" '"' :=
  ⟨by decide,
   c1_remote_untouched_when_unmapped [("x/b.css", "b.css")] "href" '"'
     "https://cdn.example/a.css" '"' (by decide) (by decide) (by decide)⟩

/-- Claim C1 counterexample: a scheme-relative (remote) reference whose
dot-slash-stripped form is a mapping key is rewritten, so the claim as
stated (unmodified for every mapping) is false. -/
theorem c1_counterexample :
    is_remote "//a.css" = true
    ∧ replace_asset_paths_in_html "src=\"//a.css\"" [("a.css", "a.css")]
      ≠ "src=\"//a.css\"" := by decide

/-- Claim C4 (confirmed).  When index.html is absent from the site
directory, generate_theme raises FileNotFoundError immediately, before any
file or directory is created: the resulting filesystem is exactly the
input one. -/
theorem c4_missing_index_aborts (parse : ParseFn) (fs : FS) (site out : String)
    (h : lookupFile fs (site ++ "/index.html") = none) :
    generate_theme parse fs site out = (some ConvError.fileNotFound, fs) := by
  unfold generate_theme
  rw [h]

/-- Claim C4 witness: on an empty filesystem the conversion fails with the
missing-input error and leaves the filesystem untouched. -/
theorem c4_witness :
    generate_theme (fun _ => []) ⟨[], []⟩ "s" "s/rmk-theme"
      = (some ConvError.fileNotFound, (⟨[], []⟩ : FS)) :=
  c4_missing_index_aborts (fun _ => []) ⟨[], []⟩ "s" "s/rmk-theme" rfl

/-- Claim C3 (amended, corrected).  For a body containing exactly a
header, a main and a footer element, the extracted fragments are the full
serialized elements (wrapper tags included), not the bare contents: with
the empty mapping the three fragments are the serializations of the three
elements. -/
theorem c3_decomposition_fragments (H M F : String) :
    extractParts [Node.elem "body" []
      [Node.elem "header" [] [Node.text H],
       Node.elem "main" [] [Node.text M],
       Node.elem "footer" [] [Node.text F]]] []
    = ("<header>" ++ escText H ++ "</header>",
       "<main>" ++ escText M ++ "</main>",
       "<footer>" ++ escText F ++ "</footer>") := by
  simp +decide [extractParts, findElem, findElemN, childrenOf, headerFragment,
    mainFragment, footerFragment, replace_nil_mapping, serializeNode, serializeNodes,
    serializeAttrs]
  refine ⟨?_, ?_, ?_⟩ <;>
    · apply String.ext
      simp only [String.data_append, List.append_assoc]
      rfl

/-- Claim C3 counterexample: on the concrete instance the header fragment
is the serialized header element, which differs from its inner content. -/
theorem c3_counterexample :
    (extractParts [Node.elem "body" []
      [Node.elem "header" [] [Node.text "X"],
       Node.elem "main" [] [Node.text "Y"],
       Node.elem "footer" [] [Node.text "Z"]]] []).1 = "<header>X</header>"
    ∧ (extractParts [Node.elem "body" []
      [Node.elem "header" [] [Node.text "X"],
       Node.elem "main" [] [Node.text "Y"],
       Node.elem "footer" [] [Node.text "Z"]]] []).1 ≠ "X" := by decide

/-! ### Substring containment over concatenations (for C2) -/

theorem containsSubL_of_prefixL {p l : List Char} (h : p.isPrefixOf l = true) :
    containsSubL p l = true := by
  cases l with
  | nil => simpa [containsSubL] using h
  | cons c t => simp [containsSubL, h]

theorem containsSubL_append {p a b : List Char} (h : containsSubL p (a ++ b) = true) :
    (∃ t, t <:+ a ∧ p.isPrefixOf (t ++ b) = true) ∨ containsSubL p b = true := by
  induction a with
  | nil => right; simpa using h
  | cons c a ih =>
    rw [List.cons_append, containsSubL] at h
    cases (Bool.or_eq_true _ _).mp h with
    | inl hx =>
      left
      exact ⟨c :: a, List.suffix_refl _, by simpa using hx⟩
    | inr hy =>
      rcases ih hy with ⟨t, ht, hp⟩ | hb
      · left
        exact ⟨t, ht.trans (List.suffix_cons c a), hp⟩
      · right
        exact hb

theorem prefix_append_of_le {p t b : List Char} (h : p.isPrefixOf (t ++ b) = true)
    (hl : p.length ≤ t.length) : p.isPrefixOf t = true := by
  rw [List.isPrefixOf_iff_prefix] at h ⊢
  have hp := List.prefix_iff_eq_take.mp h
  rw [List.take_append_eq_append_take, Nat.sub_eq_zero_of_le hl, List.take_zero,
    List.append_nil] at hp
  rw [hp]
  exact List.take_prefix _ _

theorem prefix_append_split {p t b : List Char} (h : p.isPrefixOf (t ++ b) = true)
    (hl : t.length < p.length) :
    t = p.take t.length ∧ (p.drop t.length).isPrefixOf b = true := by
  rw [List.isPrefixOf_iff_prefix] at h
  have hp := List.prefix_iff_eq_take.mp h
  rw [List.take_append_eq_append_take, List.take_of_length_le (Nat.le_of_lt hl)] at hp
  constructor
  · rw [hp, List.take_left]
  · have hd : p.drop t.length = b.take (p.length - t.length) := by
      conv_lhs => rw [hp]
      rw [List.drop_left]
    rw [hd, List.isPrefixOf_iff_prefix]
    exact List.take_prefix _ _

/-- Claim C2 (amended, corrected).  When the normalized attribute value is
a mapping key, the occurrence is rewritten to the PHP template-URI call
followed by /assets/ and the slash-stripped mapped value; the result
contains no duplicated /assets/assets/ provided the mapped value does not
itself begin with assets/ and does not contain /assets/assets/. -/
theorem c2_mapped_value_rewrite (m : Mapping) (attr : String) (q : Char) (val : String)
    (q2 : Char) (v : String)
    (h : lookupMap m (rewriterKey val) = some v) :
    replOcc m attr q val q2 = mkOcc attr q (phpUriCall ++ "/assets/" ++ lstripSlash v) q
    ∧ (strStartsWith (lstripSlash v) "assets/" = false →
       strContainsSub (lstripSlash v) "/assets/assets/" = false →
       strContainsSub (phpUriCall ++ "/assets/" ++ lstripSlash v) "/assets/assets/" = false) := by
  constructor
  · simp [replOcc, h]
  · intro h1 h2
    unfold strContainsSub at h2 ⊢
    unfold strStartsWith at h1
    set w := (lstripSlash v).data with hw
    set pat := ("/assets/assets/" : String).data with hpat
    have hdata : (phpUriCall ++ "/assets/" ++ lstripSlash v).data
        = (phpUriCall.data ++ ("/assets/" : String).data) ++ w := by
      simp [String.data_append, List.append_assoc]
    rw [hdata]
    set A := phpUriCall.data ++ ("/assets/" : String).data with hA
    by_contra hcon
    have hc : containsSubL pat (A ++ w) = true := by
      cases hcc : containsSubL pat (A ++ w) with
      | false => exact absurd hcc hcon
      | true => rfl
    rcases containsSubL_append hc with ⟨t, ht, hpre⟩ | hin
    · by_cases hlen : pat.length ≤ t.length
      · have hAll : ∀ t2 ∈ A.tails, pat.isPrefixOf t2 = false := by decide
        have hfalse := hAll t ((List.mem_tails _ _).mpr ht)
        rw [prefix_append_of_le hpre hlen] at hfalse
        exact Bool.noConfusion hfalse
      · push_neg at hlen
        obtain ⟨hteq, hdrop⟩ := prefix_append_split hpre hlen
        have hShort : ∀ t2 ∈ A.tails, t2.length < pat.length →
            t2 = pat.take t2.length →
            t2.length = 0 ∨ t2.length = 1 ∨ t2.length = 8 := by decide
        rcases hShort t ((List.mem_tails _ _).mpr ht) hlen hteq with hl0 | hl1 | hl8
        · have ht0 : t = [] := List.eq_nil_of_length_eq_zero hl0
          rw [ht0] at hdrop
          simp only [List.length_nil, List.drop_zero] at hdrop
          rw [containsSubL_of_prefixL hdrop] at h2
          exact Bool.noConfusion h2
        · rw [hl1] at hdrop
          have hsub : (("assets/" : String).data).isPrefixOf (pat.drop 1) = true := by decide
          have : (("assets/" : String).data).isPrefixOf w = true := by
            rw [List.isPrefixOf_iff_prefix] at hsub hdrop ⊢
            exact hsub.trans hdrop
          rw [this] at h1
          exact Bool.noConfusion h1
        · rw [hl8] at hdrop
          have hdeq : pat.drop 8 = ("assets/" : String).data := by decide
          rw [hdeq] at hdrop
          rw [hdrop] at h1
          exact Bool.noConfusion h1
    · rw [hin] at h2
      exact Bool.noConfusion h2

/-- Claim C2 witness: a normalized mapping entry is rewritten to the
template-URI prefix with a single /assets/ segment. -/
theorem c2_witness :
    replOcc [("css/x.css", "css/x.css")] "src" '"' "css/x.css" '"'
      = mkOcc "src" '"' (phpUriCall ++ "/assets/" ++ lstripSlash "css/x.css") '"'
    ∧ strContainsSub (phpUriCall ++ "/assets/" ++ lstripSlash "css/x.css")
        "/assets/assets/" = false :=
  ⟨(c2_mapped_value_rewrite [("css/x.css", "css/x.css")] "src" '"' "css/x.css" '"'
      "css/x.css" (by decide)).1,
   (c2_mapped_value_rewrite [("css/x.css", "css/x.css")] "src" '"' "css/x.css" '"'
      "css/x.css" (by decide)).2 (by decide) (by decide)⟩

/-- Claim C2 counterexample: a site asset that itself lives under an
assets/assets/ directory survives the single-strip normalization of
generate_theme with a leading assets/ segment, and the rewritten
attribute value then contains /assets/assets/. -/
theorem c2_counterexample :
    (lookupMap (normalizeMapping "rmk-theme" [("assets/assets/p.png", "assets/assets/p.png")])
      (rewriterKey "assets/assets/p.png")).isSome = true
    ∧ strContainsSub
        (replace_asset_paths_in_html "src=\"assets/assets/p.png\""
          (normalizeMapping "rmk-theme" [("assets/assets/p.png", "assets/assets/p.png")]))
        "/assets/assets/" = true := by decide

/-! ### Path-name decomposition (for C6) -/

theorem splitSlashL_ne_nil (l : List Char) : splitSlashL l ≠ [] := by
  induction l with
  | nil => simp [splitSlashL]
  | cons c rest ih =>
    rw [splitSlashL]
    split_ifs
    · simp
    · cases h : splitSlashL rest with
      | nil => simp
      | cons p ps => simp

theorem splitSlashL_append (a b : List Char) :
    splitSlashL (a ++ '/' :: b) = splitSlashL a ++ splitSlashL b := by
  induction a with
  | nil => simp [splitSlashL]
  | cons c rest ih =>
    by_cases hc : c = '/'
    · subst hc
      rw [List.cons_append]
      rw [show splitSlashL ('/' :: (rest ++ '/' :: b)) = [] :: splitSlashL (rest ++ '/' :: b)
        from rfl]
      rw [show splitSlashL ('/' :: rest) = [] :: splitSlashL rest from rfl]
      rw [ih]
      rfl
    · cases hsr : splitSlashL rest with
      | nil => exact absurd hsr (splitSlashL_ne_nil rest)
      | cons p ps =>
        rw [List.cons_append]
        rw [splitSlashL, if_neg hc, ih, hsr]
        conv_lhs => rw [List.cons_append]
        rw [splitSlashL, if_neg hc, hsr]
        rfl

theorem pathNameL_append_slash (a b : List Char) (h : pathNameL b ≠ []) :
    pathNameL (a ++ '/' :: b) = pathNameL b := by
  unfold pathNameL at h ⊢
  rw [splitSlashL_append, List.filter_append]
  have hne : (splitSlashL b).filter goodPiece ≠ [] := by
    intro hcon
    rw [hcon] at h
    exact h rfl
  rw [List.getLast?_append_of_ne_nil _ hne]

/-- Claim C6 (amended, corrected).  Re-applying the rewriter callback to
an already-rewritten occurrence leaves it unchanged provided the
rewritten PHP value is not itself a mapping key and every mapping entry
whose key shares the rewritten relative path's base name maps (after
slash-stripping) to that same relative path; the second application
either finds no basename match (and emits the occurrence verbatim) or
re-derives the same rewritten value. -/
theorem c6_rewrite_idempotent_occ (m : Mapping) (attr : String) (q : Char) (v' : String)
    (h0 : v'.data ≠ [])
    (hnb : ∀ c ∈ v'.data, c ≠ '\\')
    (hname : pathName v' ≠ "")
    (hex : lookupMap m (phpUriCall ++ "/assets/" ++ v') = none)
    (hcoh : ∀ kv ∈ m, pathName kv.1 = pathName v' → lstripSlash kv.2 = v') :
    replOcc m attr q (phpUriCall ++ "/assets/" ++ v') q
      = mkOcc attr q (phpUriCall ++ "/assets/" ++ v') q := by
  obtain ⟨vd⟩ := v'
  have hdata : (phpUriCall ++ "/assets/" ++ String.mk vd).data
      = (phpUriCall ++ "/assets").data ++ '/' :: vd := by
    simp [String.data_append, List.append_assoc]
  have hstrip : lstripDotSlash (phpUriCall ++ "/assets/" ++ String.mk vd)
      = phpUriCall ++ "/assets/" ++ String.mk vd := by
    show String.mk _ = _
    rw [lstripDotSlashL, hdata]
    have hgen : ∀ t : List Char,
        List.dropWhile isDotSlash ('<' :: t) = '<' :: t := by
      intro t
      rw [List.dropWhile_cons_of_neg (by decide)]
    have hform : ∃ t, (phpUriCall ++ "/assets").data ++ '/' :: vd = '<' :: t :=
      ⟨_, rfl⟩
    obtain ⟨t, ht⟩ := hform
    rw [ht, hgen, ← ht, ← hdata]
  have hback : backslashToSlash (phpUriCall ++ "/assets/" ++ String.mk vd)
      = phpUriCall ++ "/assets/" ++ String.mk vd := by
    show String.mk _ = _
    rw [backslashToSlashL, hdata]
    rw [map_id_of_mem]
    · rw [← hdata]
    · intro c hc
      rcases List.mem_append.mp hc with hpre | hrest
      · have hforall : ∀ c2 ∈ (phpUriCall ++ "/assets").data, bslashToSlashC c2 = c2 := by
          decide
        exact hforall c hpre
      · rcases List.mem_cons.mp hrest with hsl | hvd
        · subst hsl; rfl
        · simp only [bslashToSlashC]
          rw [if_neg (hnb c hvd)]
  have hkey : rewriterKey (phpUriCall ++ "/assets/" ++ String.mk vd)
      = phpUriCall ++ "/assets/" ++ String.mk vd := by
    unfold rewriterKey
    rw [hstrip, hback]
  have hpn : pathName (phpUriCall ++ "/assets/" ++ String.mk vd) = pathName (String.mk vd) := by
    show String.mk _ = String.mk _
    rw [hdata, pathNameL_append_slash]
    intro hcon
    apply hname
    show String.mk _ = _
    rw [hcon]
  unfold replOcc
  rw [hkey, hex, hpn]
  cases hfb : findByBase m (pathName (String.mk vd)) with
  | none => rfl
  | some w =>
    unfold findByBase at hfb
    cases hf : m.find? (fun kv => pathName kv.1 == pathName (String.mk vd)) with
    | none => rw [hf] at hfb; exact absurd hfb (by simp)
    | some kv =>
      rw [hf] at hfb
      simp only [Option.map_some', Option.some.injEq] at hfb
      have hmem := List.mem_of_find?_eq_some hf
      have hpred := List.find?_some hf
      have hbase : pathName kv.1 = pathName (String.mk vd) := by simpa using hpred
      have hval : lstripSlash w = String.mk vd := by
        rw [← hfb]
        exact hcoh kv hmem hbase
      have hwne : w.data.isEmpty = false := by
        cases hwe : w.data.isEmpty with
        | false => rfl
        | true =>
          exfalso
          apply h0
          have hwnil : w.data = [] := by simpa using hwe
          have hlw : lstripSlash w = String.mk [] := by
            show String.mk _ = _
            rw [lstripSlashL, hwnil]
            rfl
          rw [hval] at hlw
          have hv0 : vd = [] := congrArg String.data hlw
          simpa using hv0
      simp [hwne, hval]

/-- Claim C6 witness: re-applying the callback to the rewritten form of a
mapped attribute leaves it unchanged. -/
theorem c6_witness :
    replOcc [("css/x.css", "css/x.css")] "src" '"' (phpUriCall ++ "/assets/" ++ "css/x.css") '"'
      = mkOcc "src" '"' (phpUriCall ++ "/assets/" ++ "css/x.css") '"' :=
  c6_rewrite_idempotent_occ [("css/x.css", "css/x.css")] "src" '"' "css/x.css"
    (by decide) (by decide) (by decide) (by decide)
    (by
      intro kv hkv hb
      have hkveq := List.mem_singleton.mp hkv
      subst hkveq
      decide)

/-- Claim C6 counterexample: with two mapping keys sharing the base name
x.css, rewriting the already-rewritten fragment retargets the attribute
to the other entry, so a second application is not a no-op. -/
theorem c6_counterexample :
    replace_asset_paths_in_html
        (replace_asset_paths_in_html "src=\"b/x.css\""
          [("a/x.css", "a/x.css"), ("b/x.css", "b/x.css")])
        [("a/x.css", "a/x.css"), ("b/x.css", "b/x.css")]
      ≠ replace_asset_paths_in_html "src=\"b/x.css\""
          [("a/x.css", "a/x.css"), ("b/x.css", "b/x.css")] := by decide

/-! ### Filesystem and copy machinery (for C7, C9, C10) -/

theorem lookupMap_dictInsert (l : Mapping) (k v x : String) :
    lookupMap (dictInsert l k v) x = if x = k then some v else lookupMap l x := by
  induction l with
  | nil =>
    by_cases hx : x = k
    · subst hx
      simp [dictInsert, lookupMap, List.find?]
    · have : (k == x) = false := by
        cases hkx : k == x with
        | false => rfl
        | true => exact absurd (eq_comm.mp (eq_of_beq hkx)) hx
      simp [dictInsert, lookupMap, List.find?, this, hx]
  | cons kv0 rest ih =>
    obtain ⟨k0, v0⟩ := kv0
    by_cases h0 : k0 = k
    · subst h0
      by_cases hx : x = k0
      · subst hx
        simp [dictInsert, lookupMap, List.find?]
      · have hb : (k0 == x) = false := by
          cases hkx : k0 == x with
          | false => rfl
          | true => exact absurd (eq_comm.mp (eq_of_beq hkx)) hx
        simp [dictInsert, lookupMap, List.find?, hb, hx]
    · by_cases hx : x = k0
      · subst hx
        have hxk : ¬ x = k := fun hh => h0 (hh.symm ▸ rfl)
        simp [dictInsert, lookupMap, List.find?, h0, hxk]
      · have hb : (k0 == x) = false := by
          cases hkx : k0 == x with
          | false => rfl
          | true => exact absurd (eq_comm.mp (eq_of_beq hkx)) hx
        have lhs : lookupMap (dictInsert ((k0, v0) :: rest) k v) x
            = lookupMap (dictInsert rest k v) x := by
          simp [dictInsert, h0, lookupMap, List.find?, hb]
        rw [lhs, ih]
        by_cases hxk : x = k
        · simp [hxk]
        · simp [hxk, lookupMap, List.find?, hb]

theorem lookupFile_writeFS (fs : FS) (p c x : String) :
    lookupFile (writeFS fs p c) x = if x = p then some c else lookupFile fs x :=
  lookupMap_dictInsert fs.files p c x

theorem lookupFile_mkdirFS (fs : FS) (d x : String) :
    lookupFile (mkdirFS fs d) x = lookupFile fs x := rfl

theorem concat_inj (a q1 q2 : String) (h : a ++ q1 = a ++ q2) : q1 = q2 := by
  have hd := congrArg String.data h
  rw [String.data_append, String.data_append] at hd
  have hq := List.append_cancel_left hd
  cases q1
  cases q2
  exact congrArg String.mk hq

theorem eq_concat_of_startsWith (a pre : String) (h : strStartsWith a pre = true) :
    ∃ q : String, a = pre ++ q := by
  unfold strStartsWith at h
  rw [List.isPrefixOf_iff_prefix] at h
  obtain ⟨t, ht⟩ := h
  refine ⟨String.mk t, ?_⟩
  cases a with
  | mk d =>
    apply congrArg String.mk ?_
    simpa using ht.symm

theorem strStartsWith_concat (a q : String) : strStartsWith (a ++ q) a = true := by
  unfold strStartsWith
  rw [List.isPrefixOf_iff_prefix, String.data_append]
  exact List.prefix_append _ _

theorem relativeTo_concat (site q : String) : relativeTo site (site ++ "/" ++ q) = q := by
  unfold relativeTo
  have hpre : ((site ++ "/").data).isPrefixOf (site ++ "/" ++ q).data = true := by
    rw [List.isPrefixOf_iff_prefix, String.data_append]
    exact List.prefix_append _ _
  rw [if_pos hpre]
  have hd : (site ++ "/" ++ q).data = (site ++ "/").data ++ q.data := String.data_append _ _
  rw [hd, List.drop_left]

theorem copy_assets_total (site dest : String) :
    ∀ (assets : List String) (fs : FS) (mp : Mapping),
    (∀ a ∈ assets, (lookupFile fs a).isSome = true) →
    ∃ fs2 mp2, copyAssetsGo site dest assets fs mp = some (fs2, mp2) := by
  intro assets
  induction assets with
  | nil => intro fs mp _; exact ⟨fs, mp, rfl⟩
  | cons a rest ih =>
    intro fs mp hex
    have ha : (lookupFile fs a).isSome = true := hex a (by simp)
    obtain ⟨c, hc⟩ := Option.isSome_iff_exists.mp ha
    have hc1 : lookupFile (mkdirFS fs (parentDir (dest ++ "/" ++ relativeTo site a))) a
        = some c := by rw [lookupFile_mkdirFS, hc]
    have hex2 : ∀ a2 ∈ rest,
        (lookupFile (writeFS (mkdirFS fs (parentDir (dest ++ "/" ++ relativeTo site a)))
          (dest ++ "/" ++ relativeTo site a) c) a2).isSome = true := by
      intro a2 ha2
      rw [lookupFile_writeFS]
      by_cases he : a2 = dest ++ "/" ++ relativeTo site a
      · simp [he]
      · rw [if_neg he, lookupFile_mkdirFS]
        exact hex a2 (by simp [ha2])
    obtain ⟨fs2, mp2, heq⟩ := ih _ _ hex2
    refine ⟨fs2, mp2, ?_⟩
    unfold copyAssetsGo
    rw [hc1]
    exact heq

theorem copy_assets_untouched (site dest x : String) :
    ∀ (assets : List String) (fs : FS) (mp : Mapping) (fs2 : FS) (mp2 : Mapping),
    copyAssetsGo site dest assets fs mp = some (fs2, mp2) →
    (∀ a ∈ assets, dest ++ "/" ++ relativeTo site a ≠ x) →
    lookupFile fs2 x = lookupFile fs x := by
  intro assets
  induction assets with
  | nil =>
    intro fs mp fs2 mp2 heq _
    simp only [copyAssetsGo, Option.some.injEq, Prod.mk.injEq] at heq
    rw [← heq.1]
  | cons a rest ih =>
    intro fs mp fs2 mp2 heq hne
    unfold copyAssetsGo at heq
    cases hc : lookupFile (mkdirFS fs (parentDir (dest ++ "/" ++ relativeTo site a))) a with
    | none => rw [hc] at heq; exact absurd heq (by simp)
    | some c =>
      rw [hc] at heq
      have hrest := ih _ _ _ _ heq (fun a2 ha2 => hne a2 (by simp [ha2]))
      rw [hrest, lookupFile_writeFS, if_neg (fun hh => hne a (by simp) hh.symm),
        lookupFile_mkdirFS]

theorem mem_dictInsert {m : Mapping} {k v : String} {kv : String × String}
    (h : kv ∈ dictInsert m k v) : kv ∈ m ∨ kv = (k, v) := by
  induction m with
  | nil => right; simpa [dictInsert] using h
  | cons kv0 rest ih =>
    obtain ⟨k0, v0⟩ := kv0
    by_cases h0 : k0 = k
    · subst h0
      simp only [dictInsert, if_pos rfl] at h
      rcases List.mem_cons.mp h with he | hm
      · right; rw [he]
      · left; exact List.mem_cons_of_mem _ hm
    · simp only [dictInsert, if_neg h0] at h
      rcases List.mem_cons.mp h with he | hm
      · left; rw [he]; exact List.mem_cons_self _ _
      · rcases ih hm with hin | he2
        · left; exact List.mem_cons_of_mem _ hin
        · right; exact he2

theorem isSome_lookup_writeFS (fs : FS) (p c x : String)
    (h : (lookupFile fs x).isSome = true) :
    (lookupFile (writeFS fs p c) x).isSome = true := by
  rw [lookupFile_writeFS]
  by_cases he : x = p
  · simp [he]
  · rw [if_neg he]; exact h

theorem copy_assets_mapping_inv (site dest : String) :
    ∀ (assets : List String) (fs : FS) (mp : Mapping) (fs2 : FS) (mp2 : Mapping),
    copyAssetsGo site dest assets fs mp = some (fs2, mp2) →
    (∀ kv ∈ mp, kv.1 = backslashToSlash kv.2
      ∧ (lookupFile fs (dest ++ "/" ++ kv.2)).isSome = true) →
    ∀ kv ∈ mp2, kv.1 = backslashToSlash kv.2
      ∧ (lookupFile fs2 (dest ++ "/" ++ kv.2)).isSome = true := by
  intro assets
  induction assets with
  | nil =>
    intro fs mp fs2 mp2 heq hinv
    simp only [copyAssetsGo, Option.some.injEq, Prod.mk.injEq] at heq
    rw [← heq.1, ← heq.2]
    exact hinv
  | cons a rest ih =>
    intro fs mp fs2 mp2 heq hinv
    unfold copyAssetsGo at heq
    cases hc : lookupFile (mkdirFS fs (parentDir (dest ++ "/" ++ relativeTo site a))) a with
    | none => rw [hc] at heq; exact absurd heq (by simp)
    | some c =>
      rw [hc] at heq
      refine ih _ _ _ _ heq ?_
      intro kv hkv
      rcases mem_dictInsert hkv with hm | he
      · obtain ⟨hsh, hsm⟩ := hinv kv hm
        exact ⟨hsh, isSome_lookup_writeFS _ _ _ _ (by rw [lookupFile_mkdirFS]; exact hsm)⟩
      · subst he
        refine ⟨rfl, ?_⟩
        rw [lookupFile_writeFS, if_pos rfl]
        rfl


theorem copyAssetsGo_roundtrip (site dest : String) :
    ∀ (assets : List String) (fs : FS) (mp : Mapping) (p c : String),
    (site ++ "/" ++ p) ∈ assets →
    (∀ a ∈ assets, ∃ q, a = site ++ "/" ++ q) →
    assets.Nodup →
    (∀ a ∈ assets, (lookupFile fs a).isSome = true) →
    (∀ a ∈ assets, strStartsWith a (dest ++ "/") = false) →
    lookupFile fs (site ++ "/" ++ p) = some c →
    ∃ fs2 mp2, copyAssetsGo site dest assets fs mp = some (fs2, mp2)
      ∧ lookupFile fs2 (dest ++ "/" ++ p) = some c := by
  intro assets
  induction assets with
  | nil =>
    intro fs mp p c hmem _ _ _ _ _
    simp at hmem
  | cons a rest ih =>
    intro fs mp p c hmem hall hnd hex hdj hc
    have ha : (lookupFile fs a).isSome = true := hex a (by simp)
    obtain ⟨ca, hca⟩ := Option.isSome_iff_exists.mp ha
    have hca1 : lookupFile (mkdirFS fs (parentDir (dest ++ "/" ++ relativeTo site a))) a
        = some ca := by rw [lookupFile_mkdirFS, hca]
    have hexW : ∀ a2 ∈ rest,
        (lookupFile (writeFS (mkdirFS fs (parentDir (dest ++ "/" ++ relativeTo site a)))
          (dest ++ "/" ++ relativeTo site a) ca) a2).isSome = true := by
      intro a2 ha2
      rw [lookupFile_writeFS]
      by_cases he : a2 = dest ++ "/" ++ relativeTo site a
      · simp [he]
      · rw [if_neg he, lookupFile_mkdirFS]
        exact hex a2 (by simp [ha2])
    by_cases hap : a = site ++ "/" ++ p
    · have hrel : relativeTo site a = p := by rw [hap, relativeTo_concat]
      have hcac : ca = c := by
        rw [hap] at hca
        rw [hca] at hc
        exact Option.some.inj hc
    -- the write of the head asset is preserved through the remaining copies
      have hne : ∀ a2 ∈ rest, dest ++ "/" ++ relativeTo site a2 ≠ dest ++ "/" ++ p := by
        intro a2 ha2 hhe
        obtain ⟨q2, hq2⟩ := hall a2 (by simp [ha2])
        rw [hq2, relativeTo_concat] at hhe
        have hq2p : q2 = p := concat_inj (dest ++ "/") q2 p hhe
        subst hq2p
        rw [← hq2] at hap
        rw [← hap] at ha2
        exact (List.nodup_cons.mp hnd).1 ha2
      obtain ⟨fs2, mp2, heq⟩ := copy_assets_total site dest rest
        (writeFS (mkdirFS fs (parentDir (dest ++ "/" ++ relativeTo site a)))
          (dest ++ "/" ++ relativeTo site a) ca)
        (dictInsert mp (backslashToSlash (relativeTo site a)) (relativeTo site a)) hexW
      refine ⟨fs2, mp2, ?_, ?_⟩
      · unfold copyAssetsGo
        rw [hca1]
        exact heq
      · have hut := copy_assets_untouched site dest (dest ++ "/" ++ p) rest _ _ fs2 mp2 heq hne
        rw [hut, lookupFile_writeFS, hrel, if_pos rfl, hcac]
    · have hmem2 : (site ++ "/" ++ p) ∈ rest := by
        rcases List.mem_cons.mp hmem with he | hm
        · exact absurd he.symm hap
        · exact hm
      have hnd2 := (List.nodup_cons.mp hnd).2
      have hcW : lookupFile (writeFS (mkdirFS fs (parentDir (dest ++ "/" ++ relativeTo site a)))
          (dest ++ "/" ++ relativeTo site a) ca) (site ++ "/" ++ p) = some c := by
        rw [lookupFile_writeFS]
        rw [if_neg ?_]
        · rw [lookupFile_mkdirFS]
          exact hc
        · intro hh
          have h1 := hdj (site ++ "/" ++ p) (by simp [hmem2])
          rw [hh] at h1
          rw [strStartsWith_concat] at h1
          exact Bool.noConfusion h1
      obtain ⟨fs2, mp2, heq, hlook⟩ := ih
        (writeFS (mkdirFS fs (parentDir (dest ++ "/" ++ relativeTo site a)))
          (dest ++ "/" ++ relativeTo site a) ca)
        (dictInsert mp (backslashToSlash (relativeTo site a)) (relativeTo site a))
        p c hmem2 (fun a2 ha2 => hall a2 (by simp [ha2])) hnd2 hexW
        (fun a2 ha2 => hdj a2 (by simp [ha2])) hcW
      refine ⟨fs2, mp2, ?_, hlook⟩
      unfold copyAssetsGo
      rw [hca1]
      exact heq

/-- Claim C7 (confirmed).  For an asset located at relative path p under
the site root, copy_assets produces the file dest-assets-root slash p with
content byte-identical to the source file, with no transformation: the
looked-up content at the destination equals the source content.  The side
conditions say the asset set is a set of paths under the site root whose
files exist and which do not lie inside the destination tree. -/
theorem c7_copy_roundtrip (fs : FS) (site dest : String) (assets : List String) (p c : String)
    (hmem : (site ++ "/" ++ p) ∈ assets)
    (hall : ∀ a ∈ assets, ∃ q, a = site ++ "/" ++ q)
    (hnd : assets.Nodup)
    (hex : ∀ a ∈ assets, (lookupFile fs a).isSome = true)
    (hdj : ∀ a ∈ assets, strStartsWith a (dest ++ "/") = false)
    (hc : lookupFile fs (site ++ "/" ++ p) = some c) :
    ∃ fs2 mp2, copy_assets fs site dest assets = some (fs2, mp2)
      ∧ lookupFile fs2 (dest ++ "/" ++ p) = some c :=
  copyAssetsGo_roundtrip site dest assets fs [] p c hmem hall hnd hex hdj hc


/-- Claim C9 (confirmed).  On forward-slash relative paths (no backslash
in the path) the mapping recorded by copy_assets is the identity: the key
equals the value, and the copied file actually lies at the destination
root slash value; consequently, whenever the later normalization strips a
leading assets/ segment, the normalized value no longer matches the
location the file was copied to. -/
theorem c9_mapping_identity (fs : FS) (site dest nm : String) (assets : List String)
    (fs2 : FS) (mp : Mapping) (k v : String)
    (hrun : copy_assets fs site dest assets = some (fs2, mp))
    (hkv : (k, v) ∈ mp)
    (hnb : ∀ c ∈ v.data, c ≠ '\\') :
    k = v
    ∧ (lookupFile fs2 (dest ++ "/" ++ v)).isSome = true
    ∧ (strStartsWith v "assets/" = true → normalizeVal nm v ≠ v) := by
  have hinv := copy_assets_mapping_inv site dest assets fs [] fs2 mp hrun
    (by intro kv hkv2; simp at hkv2)
  obtain ⟨hsh0, hsm0⟩ := hinv (k, v) hkv
  have hsh : k = backslashToSlash v := hsh0
  have hsm : (lookupFile fs2 (dest ++ "/" ++ v)).isSome = true := hsm0
  have hkvid : k = v := by
    rw [hsh]
    show String.mk _ = _
    rw [backslashToSlashL,
      map_id_of_mem v.data (fun c hc => by unfold bslashToSlashC; rw [if_neg (hnb c hc)])]
  refine ⟨hkvid, hsm, ?_⟩
  intro hsw heq
  have h7 : 7 ≤ v.data.length := by
    have hsw2 := hsw
    unfold strStartsWith at hsw2
    rw [List.isPrefixOf_iff_prefix] at hsw2
    have hle := hsw2.length_le
    simpa using hle
  have hlsv : lstripSlash v = v := by
    have hsw2 := hsw
    unfold strStartsWith at hsw2
    rw [List.isPrefixOf_iff_prefix] at hsw2
    obtain ⟨t, ht⟩ := hsw2
    show String.mk _ = _
    rw [lstripSlashL]
    have hv : v.data = 'a' :: ("ssets/".data ++ t) := by
      rw [← ht]
      rfl
    rw [hv, List.dropWhile_cons_of_neg (by decide), ← hv]
  have hlen : (normalizeVal nm v).data.length < v.data.length := by
    unfold normalizeVal
    rw [hlsv]
    by_cases hth : strStartsWith v (nm ++ "/") = true
    · have hx : (stripThemeSeg nm v).data.length < v.data.length := by
        unfold stripThemeSeg
        rw [if_pos hth]
        show (v.data.drop (nm.data.length + 1)).length < _
        rw [List.length_drop]
        omega
      have hfin : (stripAssetsSeg (stripThemeSeg nm v)).data.length
          ≤ (stripThemeSeg nm v).data.length := by
        unfold stripAssetsSeg
        by_cases hsa : strStartsWith (stripThemeSeg nm v) "assets/" = true
        · rw [if_pos hsa]
          show (List.drop 7 _).length ≤ _
          rw [List.length_drop]
          omega
        · rw [if_neg hsa]
      omega
    · have hid : stripThemeSeg nm v = v := by
        unfold stripThemeSeg
        rw [if_neg hth]
      rw [hid]
      unfold stripAssetsSeg
      rw [if_pos hsw]
      show (v.data.drop 7).length < _
      rw [List.length_drop]
      omega
  rw [heq] at hlen
  exact lt_irrefl _ hlen


/-- Claim C7 witness: a stylesheet at css/site.css is copied into the
destination asset root byte-identically. -/
theorem c7_witness :
    ∃ fs2 mp2,
      copy_assets ⟨[("site/css/site.css", "BODY")], []⟩ "site" "site/rmk-theme/assets"
        ["site/css/site.css"] = some (fs2, mp2)
      ∧ lookupFile fs2 ("site/rmk-theme/assets" ++ "/" ++ "css/site.css") = some "BODY" :=
  c7_copy_roundtrip ⟨[("site/css/site.css", "BODY")], []⟩ "site" "site/rmk-theme/assets"
    ["site/css/site.css"] "css/site.css" "BODY"
    (by decide)
    (fun a ha => ⟨"css/site.css", by
      have hm := List.mem_singleton.mp ha
      rw [hm]
      decide⟩)
    (by decide) (by decide) (by decide) (by decide)

/-- Claim C9 witness: an asset under the site assets directory is
recorded identically, its copy lies under the destination assets/assets
subtree, and normalization changes the value away from that location. -/
theorem c9_witness :
    ("assets/a.css" : String) = "assets/a.css"
    ∧ (lookupFile (⟨[("s/assets/a.css", "C"), ("s/t/assets/assets/a.css", "C")],
        ["s/t/assets/assets"]⟩ : FS) ("s/t/assets" ++ "/" ++ "assets/a.css")).isSome = true
    ∧ (strStartsWith "assets/a.css" "assets/" = true →
        normalizeVal "t" "assets/a.css" ≠ "assets/a.css") :=
  c9_mapping_identity ⟨[("s/assets/a.css", "C")], []⟩ "s" "s/t/assets" "t" ["s/assets/a.css"]
    ⟨[("s/assets/a.css", "C"), ("s/t/assets/assets/a.css", "C")], ["s/t/assets/assets"]⟩
    [("assets/a.css", "assets/a.css")] "assets/a.css" "assets/a.css"
    rfl (by decide) (by decide)


/-! ### Collector invariants (for C8, C10) -/

theorem suffixOfName_nil : suffixOfName [] = [] := rfl

theorem pathNameL_ne_nil_of_suffix {l : List Char} (h : suffixL l ≠ []) : pathNameL l ≠ [] := by
  intro hn
  apply h
  unfold suffixL
  rw [hn]
  rfl

theorem suffixL_concat (a b : List Char) (h : pathNameL b ≠ []) :
    suffixL (a ++ '/' :: b) = suffixL b := by
  unfold suffixL
  rw [pathNameL_append_slash a b h]

theorem collectStep_mem (site : String) (fs : FS) (acc : List String) (val p : String)
    (h : p ∈ collectStep site fs acc val) :
    p ∈ acc ∨
      (ASSET_EXTS.contains (pathSuffixLower p) = true
        ∧ fileExistsFS fs p = true
        ∧ strStartsWith p (site ++ "/") = true) := by
  unfold collectStep at h
  split_ifs at h with h1 h2 h3
  · left; exact h
  · rcases List.mem_append.mp h with hacc | hcand
    · left; exact hacc
    · right
      have hp : p = site ++ "/" ++ lstripDotSlash val := List.mem_singleton.mp hcand
      have hex : fileExistsFS fs (site ++ "/" ++ lstripDotSlash val) = true :=
        ((Bool.and_eq_true _ _).mp h3).1
      have hsufne : suffixL (lstripDotSlash val).data ≠ [] := by
        intro hnil
        have hemp : pathSuffixLower (lstripDotSlash val) = "" := by
          unfold pathSuffixLower
          rw [hnil]
          rfl
        rw [hemp] at h2
        have : ASSET_EXTS.contains "" = false := by decide
        rw [h2] at this
        exact Bool.noConfusion this
      have hnamene : pathNameL (lstripDotSlash val).data ≠ [] :=
        pathNameL_ne_nil_of_suffix hsufne
      have hdeq : (site ++ "/" ++ lstripDotSlash val).data
          = site.data ++ '/' :: (lstripDotSlash val).data := by
        rw [String.data_append, String.data_append]
        simp [List.append_assoc]
      have hsfx : pathSuffixLower (site ++ "/" ++ lstripDotSlash val)
          = pathSuffixLower (lstripDotSlash val) := by
        unfold pathSuffixLower
        rw [hdeq, suffixL_concat site.data (lstripDotSlash val).data hnamene]
      refine ⟨?_, ?_, ?_⟩
      · rw [hp, hsfx]
        exact h2
      · rw [hp]
        exact hex
      · rw [hp]
        exact strStartsWith_concat (site ++ "/") (lstripDotSlash val)
  · left; exact h
  · left; exact h

theorem collect_fold_mem (site : String) (fs : FS) :
    ∀ (vals : List String) (acc : List String) (p : String),
    p ∈ List.foldl (collectStep site fs) acc vals →
    p ∈ acc ∨
      (ASSET_EXTS.contains (pathSuffixLower p) = true
        ∧ fileExistsFS fs p = true
        ∧ strStartsWith p (site ++ "/") = true) := by
  intro vals
  induction vals with
  | nil => intro acc p h; left; simpa using h
  | cons v rest ih =>
    intro acc p h
    rcases ih (collectStep site fs acc v) p (by simpa using h) with hstep | hg
    · exact collectStep_mem site fs acc v p hstep
    · right; exact hg

/-- Every collected path has an allow-listed extension, exists as a file,
and lies under the site root. -/
theorem collect_good (doc : List Node) (site : String) (fs : FS) :
    ∀ p ∈ collect_local_assets doc site fs,
      ASSET_EXTS.contains (pathSuffixLower p) = true
      ∧ fileExistsFS fs p = true
      ∧ strStartsWith p (site ++ "/") = true := by
  intro p hp
  rcases collect_fold_mem site fs _ [] p hp with h0 | hg
  · simp at h0
  · exact hg

/-- Claim C8 (confirmed).  Every path returned by collect_local_assets
has an extension in the allow-list and refers to an existing file under
the site root; a value recognized as remote contributes nothing to the
accumulator, without error. -/
theorem c8_collect_invariant (doc : List Node) (site : String) (fs : FS) :
    (∀ p ∈ collect_local_assets doc site fs,
        ASSET_EXTS.contains (pathSuffixLower p) = true
        ∧ fileExistsFS fs p = true
        ∧ strStartsWith p (site ++ "/") = true)
    ∧ (∀ (v : String) (acc : List String), is_remote v = true →
        collectStep site fs acc v = acc) :=
  ⟨collect_good doc site fs, fun v acc h => by simp [collectStep, h]⟩

/-- Claim C8 witness: a single collected stylesheet satisfies the
invariant, and a remote URL is dropped by the per-value step. -/
theorem c8_witness :
    (ASSET_EXTS.contains (pathSuffixLower "s/a.css") = true
      ∧ fileExistsFS ⟨[("s/a.css", "X")], []⟩ "s/a.css" = true
      ∧ strStartsWith "s/a.css" ("s" ++ "/") = true)
    ∧ collectStep "s" ⟨[("s/a.css", "X")], []⟩ [] "https://cdn.example/x.css" = [] :=
  ⟨(c8_collect_invariant [Node.elem "img" [("src", "a.css")] []] "s"
      ⟨[("s/a.css", "X")], []⟩).1 "s/a.css" (by decide),
   (c8_collect_invariant [Node.elem "img" [("src", "a.css")] []] "s"
      ⟨[("s/a.css", "X")], []⟩).2 "https://cdn.example/x.css" [] (by decide)⟩


/-! ### C10: missing head aborts before template emission -/

theorem copy_dest_ne (out rel t : String) (c : Char) (t2 : List Char)
    (ht : t.data = '/' :: c :: t2) (hc : c ≠ 'a') :
    out ++ "/assets" ++ "/" ++ rel ≠ out ++ t := by
  intro h
  have hd := congrArg String.data h
  rw [String.data_append, String.data_append, String.data_append, String.data_append] at hd
  rw [List.append_assoc, List.append_assoc] at hd
  have hx := List.append_cancel_left hd
  rw [ht] at hx
  have h8 : ("/assets" : String).data = '/' :: 'a' :: ("ssets" : String).data := rfl
  rw [h8, List.cons_append, List.cons_append] at hx
  have h1 := (List.cons.injEq _ _ _ _).mp hx
  have h2 := (List.cons.injEq _ _ _ _).mp h1.2
  exact hc h2.1.symm

theorem template_head :
    ∀ t ∈ (["/style.css", "/functions.php", "/header.php", "/footer.php",
        "/index.php"] : List String),
      ∃ (c : Char) (t2 : List Char), t.data = '/' :: c :: t2 ∧ c ≠ 'a' := by
  intro t ht
  fin_cases ht <;> exact ⟨_, _, rfl, by decide⟩

/-- Claim C10 (confirmed).  For a parsed document with no head element,
generate_theme raises the UnboundLocalError of line 203 (head_inner is
bound only inside the preceding if) instead of producing template files:
none of the five template paths is touched.  In particular the
whole-document-as-main fallback for body-less documents is reachable only
when the document has a head. -/
theorem c10_no_head_raises (parse : ParseFn) (fs : FS) (site out : String) (content : String)
    (hidx : lookupFile fs (site ++ "/index.html") = some content)
    (hnohead : findElem "head" (stripComments (parse content)) = none) :
    (generate_theme parse fs site out).1 = some ConvError.unboundLocalHead
    ∧ (∀ t ∈ (["/style.css", "/functions.php", "/header.php", "/footer.php",
          "/index.php"] : List String),
        lookupFile (generate_theme parse fs site out).2 (out ++ t)
          = lookupFile fs (out ++ t)) := by
  have hgood := collect_good (stripComments (parse content)) site
    (mkdirFS (mkdirFS fs out) (out ++ "/assets"))
  have hex : ∀ a ∈ collect_local_assets (stripComments (parse content)) site
      (mkdirFS (mkdirFS fs out) (out ++ "/assets")),
      (lookupFile (mkdirFS (mkdirFS fs out) (out ++ "/assets")) a).isSome = true :=
    fun a ha => (hgood a ha).2.1
  obtain ⟨fs2, mp2, heq⟩ := copy_assets_total site (out ++ "/assets")
    (collect_local_assets (stripComments (parse content)) site
      (mkdirFS (mkdirFS fs out) (out ++ "/assets")))
    (mkdirFS (mkdirFS fs out) (out ++ "/assets")) [] hex
  have hgen : generate_theme parse fs site out = (some ConvError.unboundLocalHead, fs2) := by
    unfold generate_theme
    rw [hidx]
    simp only [copy_assets, heq, hnohead]
  have hne : ∀ t ∈ (["/style.css", "/functions.php", "/header.php", "/footer.php",
      "/index.php"] : List String),
      ∀ a ∈ collect_local_assets (stripComments (parse content)) site
        (mkdirFS (mkdirFS fs out) (out ++ "/assets")),
      (out ++ "/assets") ++ "/" ++ relativeTo site a ≠ out ++ t := by
    intro t ht a ha hcontra
    obtain ⟨q, hq⟩ := eq_concat_of_startsWith a (site ++ "/") ((hgood a ha).2.2)
    rw [hq, relativeTo_concat] at hcontra
    obtain ⟨c0, t2, ht0, hc0⟩ := template_head t ht
    exact copy_dest_ne out q t c0 t2 ht0 hc0 hcontra
  constructor
  · rw [hgen]
  · intro t ht
    rw [hgen]
    have hut := copy_assets_untouched site (out ++ "/assets") (out ++ t)
      (collect_local_assets (stripComments (parse content)) site
        (mkdirFS (mkdirFS fs out) (out ++ "/assets")))
      (mkdirFS (mkdirFS fs out) (out ++ "/assets")) [] fs2 mp2 heq (hne t ht)
    rw [hut]
    rfl

/-- Claim C10 witness: a document with a paragraph but no head makes the
conversion raise and leaves the template paths absent. -/
theorem c10_witness :
    (generate_theme (fun _ => [Node.elem "p" [] [Node.text "x"]])
        ⟨[("s/index.html", "<p>x</p>")], []⟩ "s" "s/rmk-theme").1
      = some ConvError.unboundLocalHead
    ∧ lookupFile (generate_theme (fun _ => [Node.elem "p" [] [Node.text "x"]])
        ⟨[("s/index.html", "<p>x</p>")], []⟩ "s" "s/rmk-theme").2 ("s/rmk-theme" ++ "/index.php")
      = lookupFile ⟨[("s/index.html", "<p>x</p>")], []⟩ ("s/rmk-theme" ++ "/index.php") :=
  ⟨(c10_no_head_raises (fun _ => [Node.elem "p" [] [Node.text "x"]])
      ⟨[("s/index.html", "<p>x</p>")], []⟩ "s" "s/rmk-theme" "<p>x</p>" rfl rfl).1,
   (c10_no_head_raises (fun _ => [Node.elem "p" [] [Node.text "x"]])
      ⟨[("s/index.html", "<p>x</p>")], []⟩ "s" "s/rmk-theme" "<p>x</p>" rfl rfl).2
      "/index.php" (by decide)⟩


end RMK
